import Mathlib

/-!
Verification of the pred_market live trading engine core.

Shallow embedding of the engine's data model and operations, translated from
the Python source:
  - `src/collector/kalshi/ws.py`            (orderbook snapshot/delta application)
  - `src/services/markets/kalshi_registry.py` (station registry)
  - `src/services/markets/ticker.py`        (event selection, NWS observation window)
  - `src/services/bot/events.py`            (event/intent record types)
  - `src/services/bot/strategies/ladder.py` (ladder strategy)
  - `src/services/bot/weather_bot.py`       (discovery orderbook registration)
  - `src/services/bot/managers/execution.py` (live execution manager)
  - `src/services/backtest/engine.py`       (backtest execution manager)

Conventions: Python `int` is `Int` (Python `//` is `Int.fdiv`); Python `float`
temperatures/latitudes are `Rat` (exact ordered-field model of the finite
floats that occur); `datetime` instants are minutes since the civil epoch as
`Int`; Python `dict` is an insertion-ordered association list with unique keys
(`alookup`/`aset`/`aerase` mirror subscript read, subscript assignment and
`pop`).  Orderbook quantities are modelled as `Int` (exchange contract counts
are integral).
-/

namespace PredMarket

/-! ### Association-list primitives (Python `dict` model) -/

/-- Read a key, `d.get(k)` / `d[k]`. -/
def alookup {α β : Type} [DecidableEq α] : List (α × β) → α → Option β
  | [], _ => none
  | (k, v) :: rest, a => if k = a then some v else alookup rest a

/-- Subscript assignment `d[k] = v`: replace in place, or append a new key. -/
def aset {α β : Type} [DecidableEq α] : List (α × β) → α → β → List (α × β)
  | [], a, b => [(a, b)]
  | (k, v) :: rest, a, b =>
    if k = a then (a, b) :: rest else (k, v) :: aset rest a b

/-- `d.pop(k, None)`: drop the key if present. -/
def aerase {α β : Type} [DecidableEq α] (l : List (α × β)) (a : α) : List (α × β) :=
  l.filter (fun kv => kv.1 ≠ a)

/-! ### Orderbook application (`src/collector/kalshi/ws.py`, `KalshiWSMixin`) -/

/-- One side of a book: price (cents) → quantity, insertion-ordered. -/
abbrev OBSide := List (Int × Int)

/-- Stored orderbook for one ticker: `{"yes": {...}, "no": {...}}`. -/
structure Orderbook where
  yes : OBSide
  no : OBSide
deriving DecidableEq, Repr

/-- Payload of an `orderbook_snapshot` / `orderbook_delta` WS message. -/
structure BookMsg where
  market_ticker : String
  yes : List (Int × Int)
  no : List (Int × Int)
deriving DecidableEq, Repr

/-- The engine's orderbook store: market ticker → book. -/
abbrev Books := List (String × Orderbook)

/-- `ob[side][int(price)] = qty` for every pair of a snapshot side, into a
fresh empty dict (`apply_orderbook_snapshot` inner loops). -/
def buildSide (entries : List (Int × Int)) : OBSide :=
  entries.foldl (fun m pq => aset m pq.1 pq.2) []

/-- `apply_orderbook_snapshot`: replace the book for the ticker with the
snapshot's levels. -/
def apply_orderbook_snapshot (books : Books) (data : BookMsg) : Books :=
  aset books data.market_ticker ⟨buildSide data.yes, buildSide data.no⟩

/-- Delta inner loop for one side: `qty <= 0` pops the level, else assigns. -/
def deltaSide (m : OBSide) (entries : List (Int × Int)) : OBSide :=
  entries.foldl (fun m pq => if pq.2 ≤ 0 then aerase m pq.1 else aset m pq.1 pq.2) m

/-- `apply_orderbook_delta`: unknown tickers are ignored (`if tk not in
self.orderbooks: return`), otherwise both sides are updated in place. -/
def apply_orderbook_delta (books : Books) (data : BookMsg) : Books :=
  match alookup books data.market_ticker with
  | none => books
  | some ob =>
      aset books data.market_ticker ⟨deltaSide ob.yes data.yes, deltaSide ob.no data.no⟩

/-- `WeatherBot._discover` orderbook registration: for every discovered ticker
`self.orderbooks[tk] = {"yes": {}, "no": {}}` (unconditional). -/
def discoverBooks (books : Books) (tks : List String) : Books :=
  tks.foldl (fun b tk => aset b tk ⟨[], []⟩) books

/-- The orderbook-store operations the engine itself performs. -/
inductive BookOp where
  | snapshot (data : BookMsg)
  | delta (data : BookMsg)
  | discover (tks : List String)
deriving DecidableEq, Repr

def applyBookOp (books : Books) : BookOp → Books
  | .snapshot data => apply_orderbook_snapshot books data
  | .delta data => apply_orderbook_delta books data
  | .discover tks => discoverBooks books tks

def applyBookOps (books : Books) (ops : List BookOp) : Books :=
  ops.foldl applyBookOp books

/-- All quantities stored on one side are strictly positive. -/
def sidePos (m : OBSide) : Prop := ∀ pq ∈ m, 0 < pq.2

/-- All quantities stored anywhere in the book store are strictly positive. -/
def booksPos (books : Books) : Prop :=
  ∀ kv ∈ books, sidePos kv.2.yes ∧ sidePos kv.2.no

/-- A `BookOp` whose snapshot payload (if it is a snapshot) carries only
strictly positive quantities; deltas and discovery are unconstrained. -/
def opSnapshotPos : BookOp → Prop
  | .snapshot data => (∀ pq ∈ data.yes, 0 < pq.2) ∧ (∀ pq ∈ data.no, 0 < pq.2)
  | .delta _ => True
  | .discover _ => True

instance (m : OBSide) : Decidable (sidePos m) := by
  unfold sidePos; infer_instance

instance (books : Books) : Decidable (booksPos books) := by
  unfold booksPos; infer_instance

instance : (op : BookOp) → Decidable (opSnapshotPos op)
  | .snapshot data => by unfold opSnapshotPos; infer_instance
  | .delta _ => by unfold opSnapshotPos; infer_instance
  | .discover _ => by unfold opSnapshotPos; infer_instance

/-! ### Station registry (`src/services/markets/kalshi_registry.py`) -/

/-- `KalshiMarketConfig` (the `series_prefix` source field is `series` here;
`icao`/`iata`/`city`/`lon` are not consulted by any verified operation and are
omitted from the embedding). -/
structure KalshiMarketConfig where
  series : String
  tz : String
  lat : Rat
  synoptic_station : String
deriving DecidableEq, Repr

/-- `KALSHI_MARKET_REGISTRY`, in source insertion order.  The decimal
latitude literals of the source are written as explicit fractions (the
decimal-literal `Rat` instance is opaque to kernel evaluation). -/
def KALSHI_MARKET_REGISTRY : List (String × KalshiMarketConfig) :=
  [ ("KXHIGHCHI", ⟨"KXHIGHCHI", "America/Chicago", (4178417 : Rat) / 100000, "KMDW1M"⟩),
    ("KXHIGHNY", ⟨"KXHIGHNY", "America/New_York", (407789 : Rat) / 10000, "KNYC"⟩),
    ("KXHIGHMIA", ⟨"KXHIGHMIA", "America/New_York", (257932 : Rat) / 10000, "KMIA1M"⟩),
    ("KXHIGHDEN", ⟨"KXHIGHDEN", "America/Denver", (398561 : Rat) / 10000, "KDEN1M"⟩),
    ("KXHIGHAUS", ⟨"KXHIGHAUS", "America/Chicago", (301945 : Rat) / 10000, "KAUS1M"⟩),
    ("KXHIGHHOU", ⟨"KXHIGHHOU", "America/Chicago", (296454 : Rat) / 10000, "KHOU1M"⟩),
    ("KXHIGHPHL", ⟨"KXHIGHPHL", "America/New_York", (398721 : Rat) / 10000, "KPHL1M"⟩),
    ("KXHIGHATL", ⟨"KXHIGHATL", "America/New_York", (336407 : Rat) / 10000, "KATL1M"⟩),
    ("KXHIGHBOS", ⟨"KXHIGHBOS", "America/New_York", (423606 : Rat) / 10000, "KBOS1M"⟩),
    ("KXHIGHDCA", ⟨"KXHIGHDCA", "America/New_York", (388481 : Rat) / 10000, "KDCA1M"⟩),
    ("KXHIGHDFW", ⟨"KXHIGHDFW", "America/Chicago", (328968 : Rat) / 10000, "KDFW1M"⟩),
    ("KXHIGHLAS", ⟨"KXHIGHLAS", "America/Los_Angeles", (360800 : Rat) / 10000, "KLAS1M"⟩),
    ("KXHIGHLAX", ⟨"KXHIGHLAX", "America/Los_Angeles", (339425 : Rat) / 10000, "KLAX1M"⟩),
    ("KXHIGHMSP", ⟨"KXHIGHMSP", "America/Chicago", (448810 : Rat) / 10000, "KMSP1M"⟩),
    ("KXHIGHMSY", ⟨"KXHIGHMSY", "America/Chicago", (299934 : Rat) / 10000, "KMSY1M"⟩),
    ("KXHIGHOKC", ⟨"KXHIGHOKC", "America/Chicago", (353931 : Rat) / 10000, "KOKC1M"⟩),
    ("KXHIGHPHX", ⟨"KXHIGHPHX", "America/Phoenix", (334343 : Rat) / 10000, "KPHX1M"⟩),
    ("KXHIGHSAT", ⟨"KXHIGHSAT", "America/Chicago", (295337 : Rat) / 10000, "KSAT1M"⟩),
    ("KXHIGHSEA", ⟨"KXHIGHSEA", "America/Los_Angeles", (474490 : Rat) / 10000, "KSEA1M"⟩),
    ("KXHIGHSFO", ⟨"KXHIGHSFO", "America/Los_Angeles", (376197 : Rat) / 10000, "KSFO1M"⟩) ]

/-! ### Calendar arithmetic (`datetime.date` / naive `datetime` model)

An instant is the number of minutes since 1970-01-01 00:00; `daysFromCivil`
is the standard proleptic-Gregorian day count used to place a calendar date
on that axis. -/

structure CivilDate where
  y : Nat
  m : Nat
  d : Nat
deriving DecidableEq, Repr

/-- Days between 1970-01-01 and the given date (Gregorian, valid for `y ≥ 1`). -/
def daysFromCivil (dt : CivilDate) : Int :=
  let y' : Nat := if dt.m ≤ 2 then dt.y - 1 else dt.y
  let era : Nat := y' / 400
  let yoe : Nat := y' % 400
  let mp : Nat := (dt.m + 9) % 12
  let doy : Nat := (153 * mp + 2) / 5 + dt.d - 1
  let doe : Nat := yoe * 365 + yoe / 4 - yoe / 100 + doy
  (era * 146097 + doe : Int) - 719468

/-- Minutes-since-epoch of midnight (00:00 naive) on a date. -/
def midnightMin (dt : CivilDate) : Int := 1440 * daysFromCivil dt

def isLeapYear (y : Nat) : Bool :=
  (y % 4 = 0 && y % 100 ≠ 0) || y % 400 = 0

def daysInMonth (y m : Nat) : Nat :=
  if m = 2 then (if isLeapYear y then 29 else 28)
  else if m = 4 ∨ m = 6 ∨ m = 9 ∨ m = 11 then 30
  else 31

/-- `datetime.date(y, m, d)` raises `ValueError` outside this predicate. -/
def validDate (dt : CivilDate) : Prop :=
  1 ≤ dt.m ∧ dt.m ≤ 12 ∧ 1 ≤ dt.d ∧ dt.d ≤ daysInMonth dt.y dt.m

instance (dt : CivilDate) : Decidable (validDate dt) := by
  unfold validDate; infer_instance

/-- A zone-naive wall-clock datetime handed to the timezone database. -/
structure LocalDT where
  date : CivilDate
  hour : Nat
  minute : Nat
deriving DecidableEq, Repr

/-- Timezone oracle: `datetime(..., tzinfo=ZoneInfo(tz)).utcoffset()` in
minutes.  The IANA database itself is outside the program; all window
theorems hold for every oracle. -/
abbrev TzOracle := String → LocalDT → Int

/-! ### Event-ticker date parsing (`src/services/markets/ticker.py`) -/

/-- `str.split(sep)` on a character, non-collapsing, faithful to Python. -/
def splitCh (sep : Char) : List Char → List (List Char)
  | [] => [[]]
  | ch :: rest =>
    match splitCh sep rest with
    | [] => [[ch]]
    | g :: gs => if ch = sep then [] :: g :: gs else (ch :: g) :: gs

/-- The regex `^\d{2}[A-Z]{3}\d{2}$` of the date-token scan. -/
def isDateTok : List Char → Bool
  | [a, b, c, d, e, f, g] =>
    a.isDigit && b.isDigit && c.isUpper && d.isUpper && e.isUpper
      && f.isDigit && g.isDigit
  | _ => false

def digitVal (c : Char) : Nat := c.toNat - 48

/-- `month_map.get(month_str, 1)`. -/
def monthMap (s : List Char) : Nat :=
  if s = ['J', 'A', 'N'] then 1
  else if s = ['F', 'E', 'B'] then 2
  else if s = ['M', 'A', 'R'] then 3
  else if s = ['A', 'P', 'R'] then 4
  else if s = ['M', 'A', 'Y'] then 5
  else if s = ['J', 'U', 'N'] then 6
  else if s = ['J', 'U', 'L'] then 7
  else if s = ['A', 'U', 'G'] then 8
  else if s = ['S', 'E', 'P'] then 9
  else if s = ['O', 'C', 'T'] then 10
  else if s = ['N', 'O', 'V'] then 11
  else if s = ['D', 'E', 'C'] then 12
  else 1

/-- `"26FEB21"` → `2026-02-21`; `none` models the `ValueError` that
`date(year, month, day)` raises on an invalid calendar date. -/
def parseDateTok (p : List Char) : Option CivilDate :=
  let year := 2000 + (10 * digitVal (p.headD ' ') + digitVal ((p.drop 1).headD ' '))
  let month := monthMap ((p.drop 2).take 3)
  let day := 10 * digitVal ((p.drop 5).headD ' ') + digitVal ((p.drop 6).headD ' ')
  let dt : CivilDate := ⟨year, month, day⟩
  if validDate dt then some dt else none

/-- The first date-looking token among `parts[1:]` of the ticker. -/
def tickerDateToken (event_ticker : String) : Option (List Char) :=
  let parts := splitCh '-' event_ticker.toList
  if 2 ≤ parts.length then (parts.drop 1).find? isDateTok else none

/-- `nws_observation_period(event_ticker, tz_name)`.

`off` is the timezone oracle, `today` is `datetime.now(tz).date()` for the
unparsable-ticker fallback; `none` models the uncaught `ValueError` on a
date token naming an invalid calendar date. -/
def nws_observation_period (off : TzOracle) (today : CivilDate)
    (event_ticker : String) (tz_name : String) : Option (Int × Int) :=
  let parts := splitCh '-' event_ticker.toList
  let eventDate? : Option CivilDate :=
    if 2 ≤ parts.length then
      match (parts.drop 1).find? isDateTok with
      | some p => parseDateTok p
      | none => some today
    else some today
  match eventDate? with
  | none => none
  | some d =>
      let lstOffset := off tz_name ⟨⟨d.y, 1, 15⟩, 12, 0⟩
      let startUtc := midnightMin d - lstOffset
      some (startUtc, startUtc + 1440)

/-- Modelled from the spec (§4.3 / Window-is-LST): the window the claim
describes — 24 hours from midnight of the event date minus the station's LST
offset, the offset read at 12:00 on January 15 of the event year, or July 15
instead when the station's latitude is negative. -/
def specLstOffset (off : TzOracle) (mc : KalshiMarketConfig) (y : Nat) : Int :=
  if mc.lat < 0 then off mc.tz ⟨⟨y, 7, 15⟩, 12, 0⟩
  else off mc.tz ⟨⟨y, 1, 15⟩, 12, 0⟩

def specWindow (off : TzOracle) (mc : KalshiMarketConfig) (d : CivilDate) :
    Int × Int :=
  (midnightMin d - specLstOffset off mc d.y,
   midnightMin d - specLstOffset off mc d.y + 1440)

/-! ### Event records (`src/services/bot/events.py`) -/

structure WeatherObservationEvent where
  station : String
  temp : Rat
  ob_time : Int
deriving DecidableEq, Repr

/-- `OrderIntent` dataclass, with its source default values. -/
structure OrderIntent where
  strategy_id : String
  market_ticker : String
  side : String
  max_price_cents : Int
  max_spend_cents : Int := 0
  paper_mode : Bool := true
  station : String := ""
  series : String := ""
  event_ticker : String := ""
deriving DecidableEq, Repr

/-- The slice of a discovered market's metadata the ladder strategy reads. -/
structure MarketInfo where
  event_ticker : String
  subtitle : String
  cap_strike : Option Rat
deriving DecidableEq, Repr

structure MarketDiscoveryEvent where
  market_tickers : List String
  market_info : List (String × MarketInfo)
deriving DecidableEq, Repr

/-! ### Ladder strategy (`src/services/bot/strategies/ladder.py`) -/

/-- One `self.ladder[tk]` record. -/
structure LadderEntry where
  trigger_temp : Rat
  subtitle : String
  executed : Bool
  series : String
  station : String
  nws_start : Int
  nws_end : Int
deriving DecidableEq, Repr

/-- Instance state of a `LadderStrategy`. -/
structure LadderState where
  strategy_id : String
  consecutive_obs_required : Nat
  max_price_cents : Int
  market_configs : List (String × KalshiMarketConfig)
  weather_history : List (String × List (Int × Rat))
  ladder : List (String × LadderEntry)
deriving DecidableEq, Repr

/-- `deque(maxlen=10).append`: drop from the left once capacity is reached. -/
def histAppend (h : List (Int × Rat)) (x : Int × Rat) : List (Int × Rat) :=
  if 10 ≤ h.length then (h ++ [x]).drop (h.length + 1 - 10) else h ++ [x]

/-- `[t for (dt, t) in history if nws_start <= dt <= nws_end]`. -/
def validTemps (e : LadderEntry) (h : List (Int × Rat)) : List Rat :=
  (h.filter fun p => decide (e.nws_start ≤ p.1 ∧ p.1 ≤ e.nws_end)).map (·.2)

/-- Python `l[-k:]` (note `l[-0:]` is the whole list, and a negative index
below `-len(l)` clamps to the start). -/
def lastSlice (k : Nat) (l : List Rat) : List Rat :=
  if k = 0 then l else if l.length ≤ k then l else l.drop (l.length - k)

/-- The trigger condition of one ladder entry against a history: at least
`k` in-window observations, the last `k` of them all at or above the
trigger temperature. -/
def entryTriggered (k : Nat) (e : LadderEntry) (h : List (Int × Rat)) : Prop :=
  k ≤ (validTemps e h).length ∧
    ∀ t ∈ lastSlice k (validTemps e h), e.trigger_temp ≤ t

instance (k : Nat) (e : LadderEntry) (h : List (Int × Rat)) :
    Decidable (entryTriggered k e h) := by
  unfold entryTriggered; infer_instance

/-- Per-entry body of the `on_weather_observation` loop: the (possibly
updated) entry and the intent it publishes, evaluated against the history
`h'` that already includes the incoming observation. -/
def stepEntry (sid : String) (k : Nat) (maxPrice : Int)
    (ev : WeatherObservationEvent) (h' : List (Int × Rat))
    (tk : String) (e : LadderEntry) : LadderEntry × Option OrderIntent :=
  if e.executed then (e, none)
  else if e.station ≠ ev.station then (e, none)
  else
    let valid := validTemps e h'
    if valid.length < k then (e, none)
    else
      let recent := lastSlice k valid
      if recent.all fun t => e.trigger_temp ≤ t then
        ({ e with executed := true },
         some { strategy_id := sid, market_ticker := tk, side := "no",
                max_price_cents := maxPrice, station := ev.station,
                series := e.series })
      else (e, none)

/-- `LadderStrategy.on_weather_observation`: untracked stations return
early; otherwise the observation is appended and every ladder entry is
evaluated in order, collecting the published intents. -/
def on_weather_observation (s : LadderState) (ev : WeatherObservationEvent) :
    LadderState × List OrderIntent :=
  match alookup s.weather_history ev.station with
  | none => (s, [])
  | some h =>
      let h' := histAppend h (ev.ob_time, ev.temp)
      let results := s.ladder.map fun kv =>
        (kv.1, stepEntry s.strategy_id s.consecutive_obs_required
          s.max_price_cents ev h' kv.1 kv.2)
      ({ s with
          weather_history := aset s.weather_history ev.station h',
          ladder := results.map fun r => (r.1, r.2.1) },
       results.filterMap fun r => r.2.2)

/-- Fold a stream of weather observations, concatenating the intents. -/
def runObservations (s : LadderState) :
    List WeatherObservationEvent → LadderState × List OrderIntent
  | [] => (s, [])
  | ev :: rest =>
      let (s', out) := on_weather_observation s ev
      let (s'', out') := runObservations s' rest
      (s'', out ++ out')

/-- `char`-list prefix test (`str.startswith`). -/
def isPrefixCh : List Char → List Char → Bool
  | [], _ => true
  | _ :: _, [] => false
  | a :: as, b :: bs => a = b && isPrefixCh as bs

/-- History re-initialisation of `on_market_discovery`: clear everything,
then one fresh empty deque per target station with a configured synoptic id. -/
def initHistory (configs : List (String × KalshiMarketConfig)) :
    List (String × List (Int × Rat)) :=
  configs.foldl
    (fun wh kv =>
      if kv.2.synoptic_station ≠ "" then aset wh kv.2.synoptic_station [] else wh)
    []

/-- Ladder rebuild loop of `on_market_discovery`.  Returns the ladder and
`false` when `nws_observation_period` raised (building stops there, as the
uncaught exception aborts the handler). -/
def buildLadder (off : TzOracle) (today : CivilDate)
    (configs : List (String × KalshiMarketConfig))
    (info : List (String × MarketInfo)) :
    List String → List (String × LadderEntry) → List (String × LadderEntry) × Bool
  | [], acc => (acc, true)
  | tk :: rest, acc =>
      match alookup info tk with
      | none => buildLadder off today configs info rest acc
      | some mi =>
          match mi.cap_strike with
          | none => buildLadder off today configs info rest acc
          | some cap =>
              match configs.find? fun kv => isPrefixCh kv.1.toList mi.event_ticker.toList with
              | none => buildLadder off today configs info rest acc
              | some (series, mc) =>
                  match nws_observation_period off today mi.event_ticker mc.tz with
                  | none => (acc, false)
                  | some (ws, we) =>
                      buildLadder off today configs info rest
                        (aset acc tk
                          { trigger_temp := cap, subtitle := mi.subtitle,
                            executed := false, series := series,
                            station := mc.synoptic_station,
                            nws_start := ws, nws_end := we })

/-- `LadderStrategy.on_market_discovery`: clear the ladder, reset the
weather history, rebuild the ladder from the discovered markets.  The
boolean records whether the rebuild ran to completion. -/
def on_market_discovery (off : TzOracle) (today : CivilDate)
    (s : LadderState) (ev : MarketDiscoveryEvent) : LadderState × Bool :=
  let r :=
    buildLadder off today s.market_configs ev.market_info ev.market_tickers []
  ({ s with weather_history := initHistory s.market_configs, ladder := r.1 }, r.2)

/-! ### Event selection (`src/services/markets/ticker.py`) -/

/-- The fields of one event returned by `get_events_for_series`. -/
structure EventRec where
  event_ticker : String
  close_time : Option String
  strike_date : Option String
deriving DecidableEq, Repr

/-- Code-point lexicographic `≤` on strings (Python string comparison). -/
def chLe : List Char → List Char → Bool
  | [], _ => true
  | _ :: _, [] => false
  | a :: as, b :: bs => if a < b then true else if b < a then false else chLe as bs

/-- `(e.get("close_time") or "", e.get("strike_date") or "", e["event_ticker"])`
tuple comparison of the *active* sort. -/
def eventKeyLe (a b : EventRec) : Bool :=
  let ac := (a.close_time.getD "").toList
  let bc := (b.close_time.getD "").toList
  if ac = bc then
    let asd := (a.strike_date.getD "").toList
    let bsd := (b.strike_date.getD "").toList
    if asd = bsd then chLe a.event_ticker.toList b.event_ticker.toList
    else chLe asd bsd
  else chLe ac bc

/-- Date `≤` as Python compares `datetime.date`s. -/
def dateLe (a b : CivilDate) : Bool :=
  if a.y = b.y then (if a.m = b.m then a.d ≤ b.d else a.m ≤ b.m) else a.y ≤ b.y

/-- Key of the *next* branch's candidate sort: `(strike_date, event_ticker)`. -/
def candKeyLe (a b : EventRec × CivilDate) : Bool :=
  if a.2 = b.2 then chLe a.1.event_ticker.toList b.1.event_ticker.toList
  else dateLe a.2 b.2

/-- `_select_event_for_series(events, series, strategy)`.

`psd` abstracts the `_parse_strike_date` helper and `todayLocal` is
`datetime.now(tz).date()`.  Only the `"next"` strategy has a dedicated
branch; every other strategy value falls through to the *active* sort and
takes the single first event. -/
def selectEventForSeries (psd : Option String → Option CivilDate)
    (todayLocal : CivilDate) (events : List EventRec) (strategy : String) :
    Option String :=
  match events with
  | [] => none
  | _ :: _ =>
      let nextChoice : Option String :=
        if strategy = "next" then
          let candidates := events.filterMap fun e =>
            (psd e.strike_date).bind fun sd =>
              if dateLe todayLocal sd then some (e, sd) else none
          match candidates.insertionSort (fun a b => candKeyLe a b) with
          | [] => none
          | c :: _ => some c.1.event_ticker
        else none
      match nextChoice with
      | some t => some t
      | none =>
          match events.insertionSort (fun a b => eventKeyLe a b) with
          | [] => none
          | e :: _ => some e.event_ticker

/-- The tickers `resolve_event_tickers` collects for one series: the chosen
event's ticker, or nothing when selection fails. -/
def resolveSeriesTickers (psd : Option String → Option CivilDate)
    (todayLocal : CivilDate) (events : List EventRec) (strategy : String) :
    List String :=
  match selectEventForSeries psd todayLocal events strategy with
  | some t => [t]
  | none => []

/-! ### Live execution manager (`src/services/bot/managers/execution.py`) -/

/-- Price comparison used to sort sweep levels (`key=lambda x: x[0]`). -/
def priceLe (a b : Int × Int) : Prop := a.1 ≤ b.1

instance : DecidableRel priceLe := fun a b => by unfold priceLe; infer_instance

instance : IsTotal (Int × Int) priceLe := ⟨fun a b => Int.le_total a.1 b.1⟩

instance : IsTrans (Int × Int) priceLe := ⟨fun _ _ _ h h' => le_trans h h'⟩

/-- Mutable state of `ExecutionManager`.  `series_spent` is `_series_spent`
(a `defaultdict(int)` keyed by **series**). -/
structure ExecState where
  paper_balance : Int
  starting_balance : Int
  max_total_drawdown : Int
  max_allocation_per_series : Int
  series_spent : List (String × Int)
  orderbooks : Books
  halted : Bool
deriving DecidableEq, Repr

/-- `self._series_spent[series]` read (defaultdict: missing key is 0). -/
def spentGet (spent : List (String × Int)) (series : String) : Int :=
  (alookup spent series).getD 0

/-- `_check_drawdown`: whether the global limit is breached, and the state
with the kill switch possibly set. -/
def check_drawdown (s : ExecState) : Bool × ExecState :=
  if s.max_total_drawdown ≤ 0 then (false, s)
  else if s.max_total_drawdown ≤ s.starting_balance - s.paper_balance then
    (true, { s with halted := true })
  else (false, s)

/-- Accumulator of the sweep loop of `on_order_intent`.  `fills` records
`(price, affordable_qty)` for every level actually bought. -/
structure SweepAcc where
  balance : Int
  bought : Int
  cost : Int
  fills : List (Int × Int)
deriving DecidableEq, Repr

/-- Per-level series-allocation cap: `none` models the mid-sweep `break`
when the series allocation is exhausted; otherwise `max_by_series`. -/
def seriesCap (maxAlloc spentSeries cost price qty : Int) : Option Int :=
  if 0 < maxAlloc then
    let seriesRemaining := maxAlloc - spentSeries - cost
    if seriesRemaining ≤ 0 then none else some (seriesRemaining.fdiv price)
  else some qty

/-- The `for price, qty in available_levels` loop.  Python `//` is `Int.fdiv`;
each `break` returns the accumulator unchanged. -/
def sweepLevels (maxPrice maxAlloc spentSeries : Int) :
    List (Int × Int) → SweepAcc → SweepAcc
  | [], acc => acc
  | (price, qty) :: rest, acc =>
    if maxPrice < price then acc
    else if acc.balance < price then acc
    else
      match seriesCap maxAlloc spentSeries acc.cost price qty with
      | none => acc
      | some maxBySeries =>
          let affordable := min (min qty (acc.balance.fdiv price)) maxBySeries
          let acc' :=
            if 0 < affordable then
              { balance := acc.balance - affordable * price,
                bought := acc.bought + affordable,
                cost := acc.cost + affordable * price,
                fills := acc.fills ++ [(price, affordable)] }
            else acc
          if acc'.balance < price then acc'
          else sweepLevels maxPrice maxAlloc spentSeries rest acc'

/-- `str.lower()` (characterwise; kernel-evaluable form of `String.toLower`). -/
def strLower (s : String) : String := String.mk (s.data.map Char.toLower)

/-- Implied-ask levels for the intent's side: 100-complements of the
opposite side's resting bids with positive quantity, ascending by price. -/
def buildLevels (ob : Orderbook) (side : String) : List (Int × Int) :=
  let raw := if strLower side = "no" then ob.yes else ob.no
  let available := raw.filterMap fun pq =>
    if 0 < pq.2 then some (100 - pq.1, pq.2) else none
  available.insertionSort priceLe

/-- `ExecutionManager.on_order_intent`: kill switch, drawdown check, missing
book / empty balance guards, sweep, then spend tally and post-trade drawdown
check.  Returns the new state and the fills of this sweep. -/
def on_order_intent (s : ExecState) (intent : OrderIntent) :
    ExecState × List (Int × Int) :=
  if s.halted then (s, [])
  else
    match check_drawdown s with
    | (true, s') => (s', [])
    | (false, s') =>
        match alookup s'.orderbooks intent.market_ticker with
        | none => (s', [])
        | some ob =>
            if s'.paper_balance ≤ 0 then (s', [])
            else
              let acc := sweepLevels intent.max_price_cents
                s'.max_allocation_per_series (spentGet s'.series_spent intent.series)
                (buildLevels ob intent.side)
                { balance := s'.paper_balance, bought := 0, cost := 0, fills := [] }
              if 0 < acc.bought then
                let s'' := { s' with
                  paper_balance := acc.balance,
                  series_spent := aset s'.series_spent intent.series
                    (spentGet s'.series_spent intent.series + acc.cost) }
                ((check_drawdown s'').2, acc.fills)
              else ({ s' with paper_balance := acc.balance }, acc.fills)

/-- Total cost of a list of `(price, qty)` fills. -/
def fillsCost (fills : List (Int × Int)) : Int :=
  (fills.map fun f => f.1 * f.2).sum

/-! ### Backtest execution manager (`src/services/backtest/engine.py`,
`BacktestExecutionManager`) -/

/-- Backtest state: spend tally keyed by `(strategy_id, event_ticker)`. -/
structure BTState where
  spent : List ((String × String) × Int)
  orderbooks : Books
deriving DecidableEq, Repr

/-- `BacktestExecutionManager._remaining`: `-1` is the uncapped sentinel. -/
def bt_remaining (s : BTState) (intent : OrderIntent) : Int :=
  if intent.max_spend_cents ≤ 0 then -1
  else
    max 0 (intent.max_spend_cents -
      ((alookup s.spent (intent.strategy_id, intent.event_ticker)).getD 0))

/-- Per-level budget cap of the backtest sweep: `none` models the `break`
when the remaining budget is exhausted mid-sweep. -/
def budgetCap (budget cost price qty : Int) : Option Int :=
  if 0 ≤ budget then
    let budgetLeft := budget - cost
    if budgetLeft ≤ 0 then none else some (budgetLeft.fdiv price)
  else some qty

/-- Backtest sweep loop: budget-capped, no balance, no series allocation. -/
def sweepLevelsBT (maxPrice budget : Int) :
    List (Int × Int) → Int × Int → Int × Int
  | [], acc => acc
  | (price, qty) :: rest, (bought, cost) =>
    if maxPrice < price then (bought, cost)
    else
      match budgetCap budget cost price qty with
      | none => (bought, cost)
      | some maxByBudget =>
          let affordable := min qty maxByBudget
          if 0 < affordable then
            sweepLevelsBT maxPrice budget rest
              (bought + affordable, cost + affordable * price)
          else sweepLevelsBT maxPrice budget rest (bought, cost)

/-- `BacktestExecutionManager.on_order_intent`. -/
def bt_on_order_intent (s : BTState) (intent : OrderIntent) : BTState :=
  let budget := bt_remaining s intent
  if budget = 0 then s
  else
    match alookup s.orderbooks intent.market_ticker with
    | none => s
    | some ob =>
        let (bought, cost) :=
          sweepLevelsBT intent.max_price_cents budget (buildLevels ob intent.side) (0, 0)
        if 0 < bought then
          let key := (intent.strategy_id, intent.event_ticker)
          { s with spent := aset s.spent key ((alookup s.spent key).getD 0 + cost) }
        else s

/-- Replay a stream of intents through the backtest manager. -/
def bt_run (s : BTState) (intents : List OrderIntent) : BTState :=
  intents.foldl bt_on_order_intent s

/-! ## Helper lemmas -/

theorem alookup_aset {α β : Type} [DecidableEq α] (l : List (α × β)) (a : α)
    (b : β) (x : α) :
    alookup (aset l a b) x = if a = x then some b else alookup l x := by
  induction l with
  | nil => simp [aset, alookup]
  | cons kv rest ih =>
      obtain ⟨k, v⟩ := kv
      by_cases hka : k = a
      · subst hka
        by_cases hkx : k = x
        · subst hkx; simp [aset, alookup]
        · simp [aset, alookup, hkx]
      · by_cases hkx : k = x
        · subst hkx
          have hax : ¬ a = k := fun h => hka h.symm
          simp [aset, alookup, hka, hax]
        · simp [aset, alookup, hka, hkx, ih]

theorem mem_aset {α β : Type} [DecidableEq α] {l : List (α × β)} {a : α}
    {b : β} {kv : α × β} (h : kv ∈ aset l a b) : kv = (a, b) ∨ kv ∈ l := by
  induction l with
  | nil => simpa [aset] using h
  | cons kv' rest ih =>
      obtain ⟨k, v⟩ := kv'
      by_cases hka : k = a
      · subst hka
        rcases (by simpa [aset] using h : kv = (k, b) ∨ kv ∈ rest) with h' | h'
        · exact Or.inl h'
        · exact Or.inr (List.mem_cons_of_mem _ h')
      · rcases (by simpa [aset, hka] using h : kv = (k, v) ∨ kv ∈ aset rest a b)
          with h' | h'
        · exact Or.inr (by simp [h'])
        · rcases ih h' with h'' | h''
          · exact Or.inl h''
          · exact Or.inr (List.mem_cons_of_mem _ h'')

theorem alookup_mem {α β : Type} [DecidableEq α] {l : List (α × β)} {a : α}
    {b : β} (h : alookup l a = some b) : (a, b) ∈ l := by
  induction l with
  | nil => simp [alookup] at h
  | cons kv rest ih =>
      obtain ⟨k, v⟩ := kv
      by_cases hka : k = a
      · subst hka
        simp [alookup] at h
        simp [h]
      · exact List.mem_cons_of_mem _ (ih (by simpa [alookup, hka] using h))

theorem alookup_eq_none {α β : Type} [DecidableEq α] {l : List (α × β)} {a : α}
    (h : a ∉ l.map Prod.fst) : alookup l a = none := by
  induction l with
  | nil => rfl
  | cons kv rest ih =>
      obtain ⟨k, v⟩ := kv
      have hk : ¬ k = a := fun hk => h (by simp [hk])
      have hrest : a ∉ rest.map Prod.fst := fun hr => h (by simp [hr])
      simp [alookup, hk, ih hrest]

/-! ## C4: orderbook quantity positivity -/

theorem sidePos_aset {m : OBSide} {p q : Int} (hm : sidePos m) (hq : 0 < q) :
    sidePos (aset m p q) := by
  intro pq hpq
  rcases mem_aset hpq with h | h
  · simp [h, hq]
  · exact hm pq h

theorem sidePos_aerase {m : OBSide} {p : Int} (hm : sidePos m) :
    sidePos (aerase m p) := by
  intro pq hpq
  exact hm pq (List.mem_of_mem_filter hpq)

theorem sidePos_buildSide_aux (entries : List (Int × Int)) (m : OBSide)
    (hm : sidePos m) (hpos : ∀ pq ∈ entries, 0 < pq.2) :
    sidePos (entries.foldl (fun m pq => aset m pq.1 pq.2) m) := by
  induction entries generalizing m with
  | nil => exact hm
  | cons pq rest ih =>
      exact ih _ (sidePos_aset hm (hpos pq (by simp)))
        (fun x hx => hpos x (List.mem_cons_of_mem _ hx))

theorem sidePos_buildSide {entries : List (Int × Int)}
    (hpos : ∀ pq ∈ entries, 0 < pq.2) : sidePos (buildSide entries) :=
  sidePos_buildSide_aux entries [] (fun _ h => absurd h (List.not_mem_nil _)) hpos

theorem sidePos_deltaSide (entries : List (Int × Int)) (m : OBSide)
    (hm : sidePos m) : sidePos (deltaSide m entries) := by
  induction entries generalizing m with
  | nil => exact hm
  | cons pq rest ih =>
      unfold deltaSide at ih ⊢
      simp only [List.foldl_cons]
      by_cases hq : pq.2 ≤ 0
      · simpa [hq] using ih _ (sidePos_aerase hm)
      · simpa [hq] using ih _ (sidePos_aset hm (lt_of_not_le hq))

theorem booksPos_aset {books : Books} {tk : String} {ob : Orderbook}
    (hb : booksPos books) (hy : sidePos ob.yes) (hn : sidePos ob.no) :
    booksPos (aset books tk ob) := by
  intro kv hkv
  rcases mem_aset hkv with h | h
  · rw [h]; exact ⟨hy, hn⟩
  · exact hb kv h

theorem booksPos_discover (tks : List String) (books : Books)
    (hb : booksPos books) : booksPos (discoverBooks books tks) := by
  induction tks generalizing books with
  | nil => exact hb
  | cons tk rest ih =>
      unfold discoverBooks at ih ⊢
      simp only [List.foldl_cons]
      exact ih _ (booksPos_aset hb (fun _ h => absurd h (List.not_mem_nil _))
        (fun _ h => absurd h (List.not_mem_nil _)))

theorem booksPos_applyBookOp {books : Books} {op : BookOp} (hb : booksPos books)
    (hop : opSnapshotPos op) : booksPos (applyBookOp books op) := by
  cases op with
  | snapshot data =>
      exact booksPos_aset hb (sidePos_buildSide hop.1) (sidePos_buildSide hop.2)
  | delta data =>
      show booksPos (apply_orderbook_delta books data)
      unfold apply_orderbook_delta
      cases hob : alookup books data.market_ticker with
      | none => exact hb
      | some ob =>
          have hmem := hb _ (alookup_mem hob)
          exact booksPos_aset hb (sidePos_deltaSide _ _ hmem.1)
            (sidePos_deltaSide _ _ hmem.2)
  | discover tks => exact booksPos_discover tks books hb

/-- C4 (counterexample): the invariant as claimed — positivity after *any*
sequence of snapshot and delta applications — fails: a snapshot whose
payload carries a zero quantity is stored unfiltered
(`apply_orderbook_snapshot` has no positivity check), so the book for `"T"`
holds the level `(50, 0)`. -/
theorem orderbook_qty_positive_counterexample :
    ¬ booksPos (applyBookOps [] [.snapshot ⟨"T", [(50, 0)], []⟩]) := by
  intro h
  exact absurd (h ("T", ⟨[(50, 0)], []⟩) (by decide) |>.1 (50, 0) (by decide))
    (by decide)

/-- C4 (amended): for every ticker, side and price stored after any sequence
of snapshot, delta and discovery operations in which every *snapshot* entry
carries qty > 0, the stored quantity is strictly positive: a delta entry with
qty ≤ 0 removes the level, a delta entry with qty > 0 sets it, and a snapshot
replaces the book with exactly its own (positive) levels. -/
theorem orderbook_qty_positive (b0 : Books) (ops : List BookOp)
    (hb0 : booksPos b0) (hops : ∀ op ∈ ops, opSnapshotPos op) :
    booksPos (applyBookOps b0 ops) := by
  induction ops generalizing b0 with
  | nil => exact hb0
  | cons op rest ih =>
      exact ih _ (booksPos_applyBookOp hb0 (hops op (by simp)))
        (fun x hx => hops x (List.mem_cons_of_mem _ hx))

/-- C4 witness: a snapshot with positive levels followed by a delta that
removes one level and updates another keeps every stored quantity positive. -/
theorem orderbook_qty_positive_witness :
    booksPos (applyBookOps []
      [.snapshot ⟨"T", [(50, 2), (47, 3)], [(30, 1)]⟩,
       .delta ⟨"T", [(50, 0), (47, 9)], [(31, 4)]⟩]) :=
  orderbook_qty_positive [] _ (by decide) (by decide)

/-! ## C6: deltas for never-snapshotted tickers -/

/-- C6 (counterexample): the claim — a delta for a never-snapshotted ticker
leaves all orderbook state unchanged in every state reachable through the
engine's own operations — fails: `WeatherBot._discover` pre-creates an empty
book for every discovered ticker, so a delta arriving after discovery but
before any snapshot is applied to that empty book and changes the state. -/
theorem delta_without_snapshot_counterexample :
    applyBookOps [] [.discover ["T"], .delta ⟨"T", [(50, 5)], []⟩] ≠
      applyBookOps [] [.discover ["T"]] := by
  decide

/-- C6 (amended): a delta is ignored exactly when its ticker is absent from
the orderbook store (`if tk not in self.orderbooks: return`); discovery,
however, registers an empty book per discovered ticker, so only tickers
never discovered and never snapshotted are protected. -/
theorem delta_unknown_ticker_ignored (books : Books) (data : BookMsg)
    (h : alookup books data.market_ticker = none) :
    apply_orderbook_delta books data = books := by
  unfold apply_orderbook_delta
  rw [h]

/-- C6 witness: a delta for a ticker that was neither discovered nor
snapshotted is dropped. -/
theorem delta_unknown_ticker_ignored_witness :
    apply_orderbook_delta [("A", ⟨[(40, 1)], []⟩)] ⟨"T", [(50, 5)], []⟩ =
      [("A", ⟨[(40, 1)], []⟩)] :=
  delta_unknown_ticker_ignored _ _ (by decide)

/-! ## C5: "consecutive" event selection -/

/-- C5 (counterexample): with `event_selection = "consecutive"` and two open
events, the discovery controller selects only the sorted-first event ticker,
not the first two: `_select_event_for_series` has no `"consecutive"` branch
and falls through to the *active* single-event path. -/
theorem consecutive_selection_counterexample :
    resolveSeriesTickers (fun _ => none) ⟨2026, 2, 21⟩
      [⟨"E1", some "2026-02-21T15:00:00Z", some "2026-02-21"⟩,
       ⟨"E2", some "2026-02-22T15:00:00Z", some "2026-02-22"⟩] "consecutive"
      = ["E1"] ∧
    (["E1"] : List String) ≠ ["E1", "E2"] := by
  constructor
  · rfl
  · decide

/-- C5 (amended): when the configured event-selection strategy is
`"consecutive"`, the controller behaves exactly like *active*: it sorts the
series' open events by `(close_time, strike_date, event_ticker)` and selects
only the first event ticker; no two-event selection is implemented. -/
theorem consecutive_selection_behaves_as_active
    (psd : Option String → Option CivilDate) (todayLocal : CivilDate)
    (events : List EventRec) :
    selectEventForSeries psd todayLocal events "consecutive" =
      ((events.insertionSort fun a b => eventKeyLe a b).head?.map
        (·.event_ticker)) := by
  cases events with
  | nil => rfl
  | cons e rest =>
      show (match (e :: rest).insertionSort (fun a b => eventKeyLe a b) with
        | [] => none
        | e :: _ => some e.event_ticker) = _
      cases hs : (e :: rest).insertionSort fun a b => eventKeyLe a b with
      | nil =>
          have := List.perm_insertionSort
            (fun a b : EventRec => (eventKeyLe a b : Prop)) (e :: rest)
          rw [hs] at this
          exact absurd this.symm (by simp)
      | cons e' rest' => rfl

/-! ## C2: NWS observation window -/

/-- Every station in the registry lies in the northern hemisphere. -/
theorem registry_lat_nonneg :
    ∀ kv ∈ KALSHI_MARKET_REGISTRY, 0 ≤ kv.2.lat := by
  intro kv hkv
  fin_cases hkv <;> norm_num

/-- C2: for every timezone database, every registered station and every
event ticker containing a parsable (and calendar-valid) date token, the
resolver returns a window that is exactly 24 hours long and starts at
midnight of the event date minus the station's LST offset — the offset read
at 12:00 on January 15 of the event year, with July 15 instead whenever the
station's latitude is negative (vacuously: all registered stations have
latitude ≥ 0, and the code applies January 15). -/
theorem nws_window_is_lst (off : TzOracle) (today : CivilDate)
    (series : String) (mc : KalshiMarketConfig) (ticker : String)
    (tok : List Char) (d : CivilDate)
    (hmc : alookup KALSHI_MARKET_REGISTRY series = some mc)
    (htok : tickerDateToken ticker = some tok)
    (hd : parseDateTok tok = some d) :
    nws_observation_period off today ticker mc.tz =
      some (midnightMin d - specLstOffset off mc d.y,
            midnightMin d - specLstOffset off mc d.y + 1440) ∧
    (midnightMin d - specLstOffset off mc d.y + 1440) -
      (midnightMin d - specLstOffset off mc d.y) = 1440 := by
  have hlat : ¬ mc.lat < 0 :=
    not_lt_of_le (registry_lat_nonneg (series, mc) (alookup_mem hmc))
  unfold tickerDateToken at htok
  by_cases hlen : 2 ≤ (splitCh '-' ticker.toList).length
  · rw [if_pos hlen] at htok
    unfold nws_observation_period
    simp only [hlen, if_true, htok, hd, specLstOffset, if_neg hlat]
    exact ⟨trivial, by ring⟩
  · rw [if_neg hlen] at htok
    exact absurd htok (by simp)

/-- C2 witness: `KXHIGHCHI-26FEB21` under an oracle that answers −360
minutes (CST) gives the window `[2026-02-21 06:00Z, 2026-02-22 06:00Z)`. -/
theorem nws_window_is_lst_witness :
    nws_observation_period (fun _ _ => (-360 : Int)) ⟨2026, 1, 1⟩
        "KXHIGHCHI-26FEB21" "America/Chicago" =
      some (29527560, 29529000) := by
  have h := nws_window_is_lst (fun _ _ => (-360 : Int)) ⟨2026, 1, 1⟩
    "KXHIGHCHI" ⟨"KXHIGHCHI", "America/Chicago", (4178417 : Rat) / 100000, "KMDW1M"⟩
    "KXHIGHCHI-26FEB21" "26FEB21".toList ⟨2026, 2, 21⟩
    rfl (by decide) (by decide)
  refine h.1.trans ?_
  simp only [specLstOffset]
  rw [if_neg (by norm_num : ¬ (4178417 : Rat) / 100000 < 0)]
  decide

/-! ## Ladder-strategy lemmas -/

theorem stepEntry_of_executed {sid : String} {k : Nat} {mp : Int}
    {ev : WeatherObservationEvent} {h' : List (Int × Rat)} {tk : String}
    {e : LadderEntry} (hex : e.executed = true) :
    stepEntry sid k mp ev h' tk e = (e, none) := by
  unfold stepEntry
  rw [if_pos hex]

theorem stepEntry_emit {sid : String} {k : Nat} {mp : Int}
    {ev : WeatherObservationEvent} {h' : List (Int × Rat)} {tk : String}
    {e : LadderEntry} {i : OrderIntent}
    (h : (stepEntry sid k mp ev h' tk e).2 = some i) :
    i = { strategy_id := sid, market_ticker := tk, side := "no",
          max_price_cents := mp, station := ev.station, series := e.series } := by
  simp only [stepEntry] at h
  split at h
  · exact absurd h (by simp)
  · split at h
    · exact absurd h (by simp)
    · split at h
      · exact absurd h (by simp)
      · split at h
        · exact (Option.some.inj h).symm
        · exact absurd h (by simp)

theorem stepEntry_of_trigger {sid : String} {k : Nat} {mp : Int}
    {ev : WeatherObservationEvent} {h' : List (Int × Rat)} {tk : String}
    {e : LadderEntry} (hex : e.executed = false)
    (hst : e.station = ev.station) (htr : entryTriggered k e h') :
    stepEntry sid k mp ev h' tk e =
      ({ e with executed := true },
       some { strategy_id := sid, market_ticker := tk, side := "no",
              max_price_cents := mp, station := ev.station,
              series := e.series }) := by
  obtain ⟨hlen, hall⟩ := htr
  unfold stepEntry
  rw [if_neg (by simp [hex]), if_neg (by simp [hst])]
  simp only []
  rw [if_neg (Nat.not_lt.mpr hlen),
    if_pos (List.all_eq_true.mpr fun t ht => decide_eq_true (hall t ht))]

theorem stepEntry_of_not_trigger {sid : String} {k : Nat} {mp : Int}
    {ev : WeatherObservationEvent} {h' : List (Int × Rat)} {tk : String}
    {e : LadderEntry} (hex : e.executed = false)
    (hst : e.station = ev.station) (hnt : ¬ entryTriggered k e h') :
    stepEntry sid k mp ev h' tk e = (e, none) := by
  unfold stepEntry
  rw [if_neg (by simp [hex]), if_neg (by simp [hst])]
  simp only []
  by_cases hlen : (validTemps e h').length < k
  · rw [if_pos hlen]
  · rw [if_neg hlen]
    have hall : ¬ ∀ t ∈ lastSlice k (validTemps e h'), e.trigger_temp ≤ t :=
      fun hall => hnt ⟨Nat.le_of_not_lt hlen, hall⟩
    rw [if_neg fun hb =>
      hall fun t ht => of_decide_eq_true (List.all_eq_true.mp hb t ht)]

/-- The rebuilt ladder of one observation step, looked up at any key. -/
theorem ladder_after_step (sid : String) (k : Nat) (mp : Int)
    (ev : WeatherObservationEvent) (h' : List (Int × Rat))
    (L : List (String × LadderEntry)) (tk : String) :
    alookup ((L.map fun kv => (kv.1, stepEntry sid k mp ev h' kv.1 kv.2)).map
        fun r => (r.1, r.2.1)) tk
      = (alookup L tk).map fun e => (stepEntry sid k mp ev h' tk e).1 := by
  induction L with
  | nil => rfl
  | cons kv rest ih =>
      obtain ⟨k0, e0⟩ := kv
      by_cases hk : k0 = tk
      · subst hk; simp [alookup]
      · simpa [alookup, hk] using ih

/-- Every intent emitted by one observation step carries side `"no"`, the
instance's max price and strategy id, and the market ticker of the entry
that emitted it. -/
theorem intents_shape (sid : String) (k : Nat) (mp : Int)
    (ev : WeatherObservationEvent) (h' : List (Int × Rat))
    (L : List (String × LadderEntry)) {i : OrderIntent}
    (hi : i ∈ (L.map fun kv => (kv.1, stepEntry sid k mp ev h' kv.1 kv.2)).filterMap
      fun r => r.2.2) :
    i.side = "no" ∧ i.max_price_cents = mp ∧ i.strategy_id = sid := by
  rw [List.filterMap_map] at hi
  obtain ⟨kv, _, hkv⟩ := List.mem_filterMap.mp hi
  rw [stepEntry_emit hkv]
  exact ⟨rfl, rfl, rfl⟩

/-- Entries whose key is absent emit no intent carrying that ticker. -/
theorem intents_count_zero (sid : String) (k : Nat) (mp : Int)
    (ev : WeatherObservationEvent) (h' : List (Int × Rat))
    (L : List (String × LadderEntry)) (tk : String)
    (htk : tk ∉ L.map Prod.fst) :
    ((L.map fun kv => (kv.1, stepEntry sid k mp ev h' kv.1 kv.2)).filterMap
        fun r => r.2.2).countP (fun i => i.market_ticker = tk) = 0 := by
  induction L with
  | nil => rfl
  | cons kv rest ih =>
      obtain ⟨k0, e0⟩ := kv
      have hk : ¬ k0 = tk := fun hk => htk (by simp [hk])
      have hrest : tk ∉ rest.map Prod.fst := fun hr => htk (by simp [hr])
      simp only [List.map_cons, List.filterMap_cons]
      cases hkv : (stepEntry sid k mp ev h' k0 e0).2 with
      | none => exact ih hrest
      | some i =>
          have : i.market_ticker = k0 := by rw [stepEntry_emit hkv]
          simp only [List.countP_cons, ih hrest, this, hk]
          simp

/-- With unique ladder keys, the number of intents carrying ticker `tk`
equals 1 or 0 according to whether the entry at `tk` emitted. -/
theorem intents_count (sid : String) (k : Nat) (mp : Int)
    (ev : WeatherObservationEvent) (h' : List (Int × Rat))
    (L : List (String × LadderEntry)) (tk : String) (e : LadderEntry)
    (hnd : (L.map Prod.fst).Nodup) (hmem : alookup L tk = some e) :
    ((L.map fun kv => (kv.1, stepEntry sid k mp ev h' kv.1 kv.2)).filterMap
        fun r => r.2.2).countP (fun i => i.market_ticker = tk)
      = if (stepEntry sid k mp ev h' tk e).2.isSome then 1 else 0 := by
  induction L with
  | nil => simp [alookup] at hmem
  | cons kv rest ih =>
      obtain ⟨k0, e0⟩ := kv
      rw [List.map_cons, List.nodup_cons] at hnd
      by_cases hk : k0 = tk
      · subst hk
        have he : e0 = e := by simpa [alookup] using hmem
        subst he
        simp only [List.map_cons, List.filterMap_cons]
        cases hkv : (stepEntry sid k mp ev h' k0 e0).2 with
        | none =>
            simpa using intents_count_zero sid k mp ev h' rest k0 hnd.1
        | some i =>
            have hi : i.market_ticker = k0 := by rw [stepEntry_emit hkv]
            simp only [List.countP_cons,
              intents_count_zero sid k mp ev h' rest k0 hnd.1, hi]
            simp
      · have hmem' : alookup rest tk = some e := by simpa [alookup, hk] using hmem
        simp only [List.map_cons, List.filterMap_cons]
        cases hkv : (stepEntry sid k mp ev h' k0 e0).2 with
        | none => exact ih hnd.2 hmem'
        | some i =>
            have hi : i.market_ticker = k0 := by rw [stepEntry_emit hkv]
            simp only [List.countP_cons, hi, hk, ih hnd.2 hmem']
            simp

/-! ## C3: ladder trigger behaviour -/

/-- C3: on a weather observation for a tracked station, the strategy appends
`(ob_ts, temp)` to that station's history; each non-executed ladder entry for
that station is evaluated over the in-window observations (both window
endpoints inclusive, `trigger_temp` compared with `≥`): when at least
`consecutive_obs` valid observations exist and the last `consecutive_obs` of
them are all ≥ `trigger_temp`, the entry is marked executed and exactly one
`OrderIntent` with side `"no"`, the entry's market ticker and the instance's
`max_price_cents` is published; otherwise nothing is published for it. -/
theorem ladder_trigger_spec (s : LadderState) (ev : WeatherObservationEvent)
    (h : List (Int × Rat)) (tk : String) (e : LadderEntry)
    (hh : alookup s.weather_history ev.station = some h)
    (hnd : (s.ladder.map Prod.fst).Nodup)
    (hmem : alookup s.ladder tk = some e)
    (hst : e.station = ev.station)
    (hex : e.executed = false) :
    alookup (on_weather_observation s ev).1.weather_history ev.station =
      some (histAppend h (ev.ob_time, ev.temp)) ∧
    (entryTriggered s.consecutive_obs_required e
        (histAppend h (ev.ob_time, ev.temp)) →
      alookup (on_weather_observation s ev).1.ladder tk =
        some { e with executed := true } ∧
      (on_weather_observation s ev).2.countP
        (fun i => i.market_ticker = tk) = 1 ∧
      ∀ i ∈ (on_weather_observation s ev).2,
        i.side = "no" ∧ i.max_price_cents = s.max_price_cents ∧
        i.strategy_id = s.strategy_id) ∧
    (¬ entryTriggered s.consecutive_obs_required e
        (histAppend h (ev.ob_time, ev.temp)) →
      alookup (on_weather_observation s ev).1.ladder tk = some e ∧
      (on_weather_observation s ev).2.countP
        (fun i => i.market_ticker = tk) = 0) := by
  unfold on_weather_observation
  rw [hh]
  simp only []
  refine ⟨by rw [alookup_aset]; simp, fun htr => ?_, fun hnt => ?_⟩
  · refine ⟨?_, ?_, ?_⟩
    · rw [ladder_after_step, hmem, Option.map_some',
        stepEntry_of_trigger hex hst htr]
    · rw [intents_count _ _ _ _ _ _ _ _ hnd hmem,
        stepEntry_of_trigger hex hst htr]
      rfl
    · intro i hi
      exact intents_shape _ _ _ _ _ _ hi
  · constructor
    · rw [ladder_after_step, hmem, Option.map_some',
        stepEntry_of_not_trigger hex hst hnt]
    · rw [intents_count _ _ _ _ _ _ _ _ hnd hmem,
        stepEntry_of_not_trigger hex hst hnt]
      rfl

/-- C3 witness: two in-window observations at the trigger temperature (the
second arriving as the event) trigger the single entry and publish one
NO-side intent at the configured price cap. -/
theorem ladder_trigger_spec_witness :
    (on_weather_observation
        { strategy_id := "lad", consecutive_obs_required := 2,
          max_price_cents := 95, market_configs := [],
          weather_history := [("KMDW1M", [(10, 42)])],
          ladder := [("T", { trigger_temp := 42, subtitle := "", executed := false,
                             series := "KXHIGHCHI", station := "KMDW1M",
                             nws_start := 0, nws_end := 100 })] }
        { station := "KMDW1M", temp := 42, ob_time := 11 }).2.countP
      (fun i => i.market_ticker = "T") = 1 := by
  have h := ladder_trigger_spec
    { strategy_id := "lad", consecutive_obs_required := 2,
      max_price_cents := 95, market_configs := [],
      weather_history := [("KMDW1M", [(10, 42)])],
      ladder := [("T", { trigger_temp := 42, subtitle := "", executed := false,
                         series := "KXHIGHCHI", station := "KMDW1M",
                         nws_start := 0, nws_end := 100 })] }
    { station := "KMDW1M", temp := 42, ob_time := 11 }
    [(10, 42)] "T"
    { trigger_temp := 42, subtitle := "", executed := false,
      series := "KXHIGHCHI", station := "KMDW1M", nws_start := 0, nws_end := 100 }
    rfl (by decide) rfl rfl rfl
  exact (h.2.1 (by decide)).2.1

/-! ## C8: monotone execution -/

/-- One observation step leaves the ladder's key list unchanged. -/
theorem keys_after_step (sid : String) (k : Nat) (mp : Int)
    (ev : WeatherObservationEvent) (h' : List (Int × Rat))
    (L : List (String × LadderEntry)) :
    ((L.map fun kv => (kv.1, stepEntry sid k mp ev h' kv.1 kv.2)).map
        fun r => (r.1, r.2.1)).map Prod.fst = L.map Prod.fst := by
  induction L with
  | nil => rfl
  | cons kv rest ih =>
      simp only [List.map_cons, List.cons.injEq]
      exact ⟨trivial, ih⟩

/-- One observation step never un-executes an entry, never emits an intent
for an executed entry, and preserves the ladder's key set. -/
theorem step_keeps_executed (s : LadderState) (ev : WeatherObservationEvent)
    (tk : String) (e : LadderEntry)
    (hmem : alookup s.ladder tk = some e) (hex : e.executed = true)
    (hnd : (s.ladder.map Prod.fst).Nodup) :
    alookup (on_weather_observation s ev).1.ladder tk = some e ∧
    (on_weather_observation s ev).2.countP
      (fun i => i.market_ticker = tk) = 0 ∧
    ((on_weather_observation s ev).1.ladder.map Prod.fst).Nodup := by
  unfold on_weather_observation
  cases hh : alookup s.weather_history ev.station with
  | none => exact ⟨hmem, rfl, hnd⟩
  | some h =>
      simp only []
      refine ⟨?_, ?_, ?_⟩
      · rw [ladder_after_step, hmem, Option.map_some', stepEntry_of_executed hex]
      · rw [intents_count _ _ _ _ _ _ _ _ hnd hmem, stepEntry_of_executed hex]
        rfl
      · rw [keys_after_step]
        exact hnd

/-- C8: once a ladder entry is executed, no later weather observation (before
the next discovery rebuild) emits an intent for it, and `executed` never
reverts to false. -/
theorem monotone_execution (s : LadderState)
    (evs : List WeatherObservationEvent) (tk : String) (e : LadderEntry)
    (hmem : alookup s.ladder tk = some e) (hex : e.executed = true)
    (hnd : (s.ladder.map Prod.fst).Nodup) :
    alookup (runObservations s evs).1.ladder tk = some e ∧
    (runObservations s evs).2.countP (fun i => i.market_ticker = tk) = 0 := by
  induction evs generalizing s with
  | nil => exact ⟨hmem, rfl⟩
  | cons ev rest ih =>
      obtain ⟨h1, h2, h3⟩ := step_keeps_executed s ev tk e hmem hex hnd
      unfold runObservations
      simp only []
      obtain ⟨ih1, ih2⟩ := ih (on_weather_observation s ev).1 h1 h3
      exact ⟨ih1, by rw [List.countP_append, h2, ih2]⟩

/-- C8 witness: an executed entry stays executed across a stream of hot
in-window observations and no intent for its ticker is emitted. -/
theorem monotone_execution_witness :
    alookup (runObservations
        { strategy_id := "lad", consecutive_obs_required := 2,
          max_price_cents := 95, market_configs := [],
          weather_history := [("KMDW1M", [(10, 50)])],
          ladder := [("T", { trigger_temp := 42, subtitle := "", executed := true,
                             series := "KXHIGHCHI", station := "KMDW1M",
                             nws_start := 0, nws_end := 100 })] }
        [{ station := "KMDW1M", temp := 50, ob_time := 11 },
         { station := "KMDW1M", temp := 50, ob_time := 12 }]).1.ladder "T" =
      some { trigger_temp := 42, subtitle := "", executed := true,
             series := "KXHIGHCHI", station := "KMDW1M",
             nws_start := 0, nws_end := 100 } :=
  (monotone_execution
    { strategy_id := "lad", consecutive_obs_required := 2,
      max_price_cents := 95, market_configs := [],
      weather_history := [("KMDW1M", [(10, 50)])],
      ladder := [("T", { trigger_temp := 42, subtitle := "", executed := true,
                         series := "KXHIGHCHI", station := "KMDW1M",
                         nws_start := 0, nws_end := 100 })] }
    [{ station := "KMDW1M", temp := 50, ob_time := 11 },
     { station := "KMDW1M", temp := 50, ob_time := 12 }] "T"
    { trigger_temp := 42, subtitle := "", executed := true,
      series := "KXHIGHCHI", station := "KMDW1M",
      nws_start := 0, nws_end := 100 }
    rfl rfl (by decide)).1

/-! ## C7: history reset on discovery -/

theorem initHistory_values (configs : List (String × KalshiMarketConfig))
    (wh : List (String × List (Int × Rat)))
    (hwh : ∀ kv ∈ wh, kv.2 = ([] : List (Int × Rat))) :
    ∀ kv ∈ configs.foldl
      (fun wh kv =>
        if kv.2.synoptic_station ≠ "" then aset wh kv.2.synoptic_station [] else wh)
      wh, kv.2 = ([] : List (Int × Rat)) := by
  induction configs generalizing wh with
  | nil => exact hwh
  | cons c rest ih =>
      simp only [List.foldl_cons]
      refine ih _ ?_
      by_cases hc : c.2.synoptic_station ≠ ""
      · rw [if_pos hc]
        intro kv hkv
        rcases mem_aset hkv with h | h
        · rw [h]
        · exact hwh kv h
      · rw [if_neg hc]; exact hwh

theorem initHistory_keys (configs : List (String × KalshiMarketConfig))
    (wh : List (String × List (Int × Rat))) (st : String) :
    (alookup (configs.foldl
      (fun wh kv =>
        if kv.2.synoptic_station ≠ "" then aset wh kv.2.synoptic_station [] else wh)
      wh) st).isSome ↔
    ((alookup wh st).isSome ∨
      ∃ kv ∈ configs, kv.2.synoptic_station = st ∧ st ≠ "") := by
  induction configs generalizing wh with
  | nil => simp
  | cons c rest ih =>
      simp only [List.foldl_cons]
      rw [ih]
      by_cases hc : c.2.synoptic_station ≠ ""
      · rw [if_pos hc, alookup_aset]
        by_cases hcs : c.2.synoptic_station = st
        · subst hcs
          simp [hc]
        · simp only [if_neg hcs]
          constructor
          · rintro (h | h)
            · exact Or.inl h
            · obtain ⟨kv, hkv, hkv2⟩ := h
              exact Or.inr ⟨kv, List.mem_cons_of_mem _ hkv, hkv2⟩
          · rintro (h | ⟨kv, hkv, hkv2⟩)
            · exact Or.inl h
            · rcases List.mem_cons.mp hkv with rfl | hkv'
              · exact absurd hkv2.1 hcs
              · exact Or.inr ⟨kv, hkv', hkv2⟩
      · rw [if_neg hc]
        push_neg at hc
        constructor
        · rintro (h | ⟨kv, hkv, hkv2⟩)
          · exact Or.inl h
          · exact Or.inr ⟨kv, List.mem_cons_of_mem _ hkv, hkv2⟩
        · rintro (h | ⟨kv, hkv, hkv2⟩)
          · exact Or.inl h
          · rcases List.mem_cons.mp hkv with rfl | hkv'
            · exact absurd (hc ▸ hkv2.1).symm hkv2.2
            · exact Or.inr ⟨kv, hkv', hkv2⟩

/-- C7: immediately after a strategy processes a `MarketDiscoveryEvent`,
every per-station weather-history deque it holds is empty, and a deque
exists exactly for the instance's target stations (those of its configured
series with a non-empty synoptic station id). -/
theorem history_reset_on_discovery (off : TzOracle) (today : CivilDate)
    (s : LadderState) (ev : MarketDiscoveryEvent) (st : String) :
    (∀ h, alookup (on_market_discovery off today s ev).1.weather_history st =
        some h → h = []) ∧
    ((alookup (on_market_discovery off today s ev).1.weather_history st).isSome ↔
      ∃ kv ∈ s.market_configs, kv.2.synoptic_station = st ∧ st ≠ "") := by
  have hwh : (on_market_discovery off today s ev).1.weather_history =
      initHistory s.market_configs := rfl
  constructor
  · intro h hlook
    rw [hwh] at hlook
    exact initHistory_values s.market_configs [] (by simp) (st, h)
      (alookup_mem hlook)
  · rw [hwh]
    unfold initHistory
    have := initHistory_keys s.market_configs [] st
    simpa [alookup] using this

/-- C7 witness: after a discovery, the lone target station's deque exists and
is empty. -/
theorem history_reset_on_discovery_witness :
    (alookup (on_market_discovery (fun _ _ => (-360 : Int)) ⟨2026, 1, 1⟩
        { strategy_id := "lad", consecutive_obs_required := 2,
          max_price_cents := 95,
          market_configs := [("KXHIGHCHI",
            ⟨"KXHIGHCHI", "America/Chicago", 41, "KMDW1M"⟩)],
          weather_history := [("KMDW1M", [(10, 50)])],
          ladder := [] }
        { market_tickers := [], market_info := [] }).1.weather_history
      "KMDW1M").isSome :=
  (history_reset_on_discovery _ _ _ _ "KMDW1M").2.mpr
    ⟨("KXHIGHCHI", ⟨"KXHIGHCHI", "America/Chicago", 41, "KMDW1M"⟩),
      by decide, rfl, by decide⟩

/-! ## Sweep lemmas -/

/-- A positive take bounded by `bal // price` forces a positive price and a
cost within `bal`. -/
theorem take_le_of_fdiv {bal price q : Int} (hbal : 0 ≤ bal) (hq : 0 < q)
    (hle : q ≤ bal.fdiv price) : 0 < price ∧ q * price ≤ bal := by
  rcases lt_trichotomy price 0 with hp | hp | hp
  · exact absurd (le_trans hle (Int.fdiv_nonpos hbal (le_of_lt hp)))
      (not_le.mpr hq)
  · rw [hp, Int.fdiv_zero] at hle
    exact absurd hle (not_le.mpr hq)
  · refine ⟨hp, ?_⟩
    rw [Int.fdiv_eq_ediv _ (le_of_lt hp)] at hle
    exact (Int.le_ediv_iff_mul_le hp).mp hle

/-- Full structural description of one sweep: the new fills extend the old,
their prices are a sub-sequence of the level prices, every fill respects the
price cap with a positive take, the balance stays non-negative and the cost
and balance deltas equal the cost of the new fills. -/
theorem sweepLevels_spec (maxPrice maxAlloc spentSeries : Int)
    (levels : List (Int × Int)) (acc : SweepAcc) (hbal : 0 ≤ acc.balance) :
    ∃ extra,
      (sweepLevels maxPrice maxAlloc spentSeries levels acc).fills =
        acc.fills ++ extra ∧
      (extra.map Prod.fst).Sublist (levels.map Prod.fst) ∧
      (∀ f ∈ extra, f.1 ≤ maxPrice ∧ 0 < f.2) ∧
      0 ≤ (sweepLevels maxPrice maxAlloc spentSeries levels acc).balance ∧
      (sweepLevels maxPrice maxAlloc spentSeries levels acc).balance +
        fillsCost extra = acc.balance ∧
      (sweepLevels maxPrice maxAlloc spentSeries levels acc).cost =
        acc.cost + fillsCost extra := by
  induction levels generalizing acc with
  | nil =>
      exact ⟨[], by simp [sweepLevels, fillsCost], by simp, by simp,
        by simpa [sweepLevels] using hbal, by simp [sweepLevels, fillsCost],
        by simp [sweepLevels, fillsCost]⟩
  | cons lv rest ih =>
      obtain ⟨price, qty⟩ := lv
      by_cases h1 : maxPrice < price
      · have hR : sweepLevels maxPrice maxAlloc spentSeries
            ((price, qty) :: rest) acc = acc := by
          simp [sweepLevels, h1]
        exact ⟨[], by simp [hR], by simp, by simp, by simpa [hR] using hbal,
          by simp [hR, fillsCost], by simp [hR, fillsCost]⟩
      · by_cases h2 : acc.balance < price
        · have hR : sweepLevels maxPrice maxAlloc spentSeries
              ((price, qty) :: rest) acc = acc := by
            simp [sweepLevels, h1, h2]
          exact ⟨[], by simp [hR], by simp, by simp, by simpa [hR] using hbal,
            by simp [hR, fillsCost], by simp [hR, fillsCost]⟩
        · cases hms : seriesCap maxAlloc spentSeries acc.cost price qty with
          | none =>
              have hR : sweepLevels maxPrice maxAlloc spentSeries
                  ((price, qty) :: rest) acc = acc := by
                simp [sweepLevels, h1, h2, hms]
              exact ⟨[], by simp [hR], by simp, by simp,
                by simpa [hR] using hbal, by simp [hR, fillsCost],
                by simp [hR, fillsCost]⟩
          | some maxBySeries =>
              by_cases h3 : 0 < min (min qty (acc.balance.fdiv price)) maxBySeries
              · have hafdiv :
                    min (min qty (acc.balance.fdiv price)) maxBySeries ≤
                      acc.balance.fdiv price :=
                  le_trans (min_le_left _ _) (min_le_right _ _)
                obtain ⟨hp, hcost⟩ := take_le_of_fdiv hbal h3 hafdiv
                have hbal' : (0 : Int) ≤ acc.balance -
                    min (min qty (acc.balance.fdiv price)) maxBySeries * price := by
                  omega
                by_cases h4 : acc.balance -
                    min (min qty (acc.balance.fdiv price)) maxBySeries * price < price
                · have hR : sweepLevels maxPrice maxAlloc spentSeries
                      ((price, qty) :: rest) acc =
                      { balance := acc.balance -
                          min (min qty (acc.balance.fdiv price)) maxBySeries * price,
                        bought := acc.bought +
                          min (min qty (acc.balance.fdiv price)) maxBySeries,
                        cost := acc.cost +
                          min (min qty (acc.balance.fdiv price)) maxBySeries * price,
                        fills := acc.fills ++
                          [(price, min (min qty (acc.balance.fdiv price)) maxBySeries)] } := by
                    simp only [sweepLevels, if_neg h1, if_neg h2, hms]
                    rw [if_pos h3]
                    rw [if_pos h4]
                  refine ⟨[(price, min (min qty (acc.balance.fdiv price)) maxBySeries)],
                    ?_, ?_, ?_, ?_, ?_, ?_⟩
                  · rw [hR]
                  · simp
                  · intro f hf
                    obtain rfl := List.mem_singleton.mp hf
                    exact ⟨not_lt.mp h1, h3⟩
                  · rw [hR]; exact hbal'
                  · rw [hR]
                    have hfc : fillsCost
                        [(price, min (min qty (acc.balance.fdiv price)) maxBySeries)] =
                        price * min (min qty (acc.balance.fdiv price)) maxBySeries := by
                      simp [fillsCost]
                    rw [hfc]; ring
                  · rw [hR]
                    have hfc : fillsCost
                        [(price, min (min qty (acc.balance.fdiv price)) maxBySeries)] =
                        price * min (min qty (acc.balance.fdiv price)) maxBySeries := by
                      simp [fillsCost]
                    rw [hfc]; ring
                · have hR : sweepLevels maxPrice maxAlloc spentSeries
                      ((price, qty) :: rest) acc =
                      sweepLevels maxPrice maxAlloc spentSeries rest
                        { balance := acc.balance -
                            min (min qty (acc.balance.fdiv price)) maxBySeries * price,
                          bought := acc.bought +
                            min (min qty (acc.balance.fdiv price)) maxBySeries,
                          cost := acc.cost +
                            min (min qty (acc.balance.fdiv price)) maxBySeries * price,
                          fills := acc.fills ++
                            [(price, min (min qty (acc.balance.fdiv price)) maxBySeries)] } := by
                    simp only [sweepLevels, if_neg h1, if_neg h2, hms]
                    rw [if_pos h3]
                    rw [if_neg h4]
                  obtain ⟨extra', hfills, hsub, hprops, hbal'', hbalEq, hcostEq⟩ :=
                    ih { balance := acc.balance -
                           min (min qty (acc.balance.fdiv price)) maxBySeries * price,
                         bought := acc.bought +
                           min (min qty (acc.balance.fdiv price)) maxBySeries,
                         cost := acc.cost +
                           min (min qty (acc.balance.fdiv price)) maxBySeries * price,
                         fills := acc.fills ++
                           [(price, min (min qty (acc.balance.fdiv price)) maxBySeries)] }
                      hbal'
                  have hcc : fillsCost
                      ((price, min (min qty (acc.balance.fdiv price)) maxBySeries)
                        :: extra') =
                      price * min (min qty (acc.balance.fdiv price)) maxBySeries +
                        fillsCost extra' := by
                    simp [fillsCost]
                  refine ⟨(price, min (min qty (acc.balance.fdiv price)) maxBySeries)
                    :: extra', ?_, ?_, ?_, ?_, ?_, ?_⟩
                  · rw [hR, hfills]; simp
                  · exact List.Sublist.cons₂ price hsub
                  · intro f hf
                    rcases List.mem_cons.mp hf with rfl | hf'
                    · exact ⟨not_lt.mp h1, h3⟩
                    · exact hprops f hf'
                  · rw [hR]; exact hbal''
                  · rw [hR, hcc]
                    have hbalEq' : (sweepLevels maxPrice maxAlloc spentSeries rest
                        { balance := acc.balance -
                            min (min qty (acc.balance.fdiv price)) maxBySeries * price,
                          bought := acc.bought +
                            min (min qty (acc.balance.fdiv price)) maxBySeries,
                          cost := acc.cost +
                            min (min qty (acc.balance.fdiv price)) maxBySeries * price,
                          fills := acc.fills ++
                            [(price, min (min qty (acc.balance.fdiv price)) maxBySeries)] }).balance +
                        fillsCost extra' =
                        acc.balance -
                          min (min qty (acc.balance.fdiv price)) maxBySeries * price :=
                      hbalEq
                    linarith [hbalEq']
                  · rw [hR, hcc]
                    have hcostEq' : (sweepLevels maxPrice maxAlloc spentSeries rest
                        { balance := acc.balance -
                            min (min qty (acc.balance.fdiv price)) maxBySeries * price,
                          bought := acc.bought +
                            min (min qty (acc.balance.fdiv price)) maxBySeries,
                          cost := acc.cost +
                            min (min qty (acc.balance.fdiv price)) maxBySeries * price,
                          fills := acc.fills ++
                            [(price, min (min qty (acc.balance.fdiv price)) maxBySeries)] }).cost =
                        acc.cost +
                          min (min qty (acc.balance.fdiv price)) maxBySeries * price +
                          fillsCost extra' :=
                      hcostEq
                    linarith [hcostEq']
              · have hR : sweepLevels maxPrice maxAlloc spentSeries
                    ((price, qty) :: rest) acc =
                    sweepLevels maxPrice maxAlloc spentSeries rest acc := by
                  simp only [sweepLevels, if_neg h1, if_neg h2, hms]
                  rw [if_neg h3]
                  rw [if_neg h2]
                obtain ⟨extra', hfills, hsub, hprops, hbal'', hbalEq, hcostEq⟩ :=
                  ih acc hbal
                exact ⟨extra', by rw [hR, hfills],
                  hsub.trans (List.sublist_cons_self _ _), hprops,
                  by rw [hR]; exact hbal'', by rw [hR]; exact hbalEq,
                  by rw [hR]; exact hcostEq⟩

theorem check_drawdown_snd (s : ExecState) :
    (check_drawdown s).2 = s ∨ (check_drawdown s).2 = { s with halted := true } := by
  unfold check_drawdown
  split_ifs <;> simp

theorem check_drawdown_balance (s : ExecState) :
    (check_drawdown s).2.paper_balance = s.paper_balance := by
  unfold check_drawdown
  split_ifs <;> rfl

/-- Every level built for a sweep is the 100-complement of an opposite-side
resting bid with positive quantity. -/
theorem buildLevels_mem {ob : Orderbook} {side : String} {p q : Int}
    (h : (p, q) ∈ buildLevels ob side) :
    ∃ pq ∈ (if strLower side = "no" then ob.yes else ob.no),
      0 < pq.2 ∧ p = 100 - pq.1 := by
  unfold buildLevels at h
  have h' := (List.perm_insertionSort priceLe _).mem_iff.mp h
  obtain ⟨pq, hpq, hsome⟩ := List.mem_filterMap.mp h'
  by_cases hq : 0 < pq.2
  · rw [if_pos hq] at hsome
    obtain ⟨rfl, rfl⟩ := Prod.mk.injEq .. ▸ Option.some.inj hsome
    exact ⟨pq, hpq, hq, rfl⟩
  · rw [if_neg hq] at hsome
    exact absurd hsome (by simp)

/-- The levels of a sweep are sorted ascending by price. -/
theorem buildLevels_sorted (ob : Orderbook) (side : String) :
    List.Pairwise priceLe (buildLevels ob side) :=
  List.sorted_insertionSort priceLe _

/-- Branch analysis of `on_order_intent`: either nothing was swept (no fills,
balance untouched), or the book was found, the balance was positive, and the
result is exactly the sweep of the built levels. -/
theorem on_order_intent_cases (s : ExecState) (intent : OrderIntent) :
    ((on_order_intent s intent).2 = [] ∧
      (on_order_intent s intent).1.paper_balance = s.paper_balance) ∨
    (∃ ob, alookup s.orderbooks intent.market_ticker = some ob ∧
      0 < s.paper_balance ∧
      (on_order_intent s intent).2 =
        (sweepLevels intent.max_price_cents s.max_allocation_per_series
          (spentGet s.series_spent intent.series) (buildLevels ob intent.side)
          { balance := s.paper_balance, bought := 0, cost := 0, fills := [] }).fills ∧
      (on_order_intent s intent).1.paper_balance =
        (sweepLevels intent.max_price_cents s.max_allocation_per_series
          (spentGet s.series_spent intent.series) (buildLevels ob intent.side)
          { balance := s.paper_balance, bought := 0, cost := 0, fills := [] }).balance) := by
  unfold on_order_intent
  by_cases hh : s.halted
  · left
    rw [if_pos hh]
    exact ⟨rfl, rfl⟩
  · rw [if_neg hh]
    have hsnd := check_drawdown_snd s
    rcases hcd : check_drawdown s with ⟨b, s'⟩
    rw [hcd] at hsnd
    have hs' : s' = s ∨ s' = { s with halted := true } := hsnd
    have hp1 : s'.paper_balance = s.paper_balance := by
      rcases hs' with h | h <;> rw [h]
    have hp2 : s'.orderbooks = s.orderbooks := by
      rcases hs' with h | h <;> rw [h]
    have hp3 : s'.series_spent = s.series_spent := by
      rcases hs' with h | h <;> rw [h]
    have hp4 : s'.max_allocation_per_series = s.max_allocation_per_series := by
      rcases hs' with h | h <;> rw [h]
    cases b
    · dsimp only
      cases hob : alookup s'.orderbooks intent.market_ticker with
      | none => exact Or.inl ⟨rfl, hp1⟩
      | some ob =>
          dsimp only
          by_cases hbz : s'.paper_balance ≤ 0
          · rw [if_pos hbz]
            exact Or.inl ⟨rfl, hp1⟩
          · rw [if_neg hbz]
            rw [hp1, hp2, hp3, hp4] at *
            refine Or.inr ⟨ob, hob, lt_of_not_le hbz, ?_, ?_⟩
            · split_ifs <;> rfl
            · split_ifs with hbought
              · dsimp only
                rw [check_drawdown_balance]
              · rfl
    · dsimp only
      exact Or.inl ⟨rfl, hp1⟩

/-! ## C9: sweep price bound, order, and level derivation -/

/-- C9: in every sweep the fills consume only 100-complements of the
opposite side's positive resting bids, walk prices in non-decreasing order,
and never fill above the intent's `max_price_cents`. -/
theorem sweep_price_rules (s : ExecState) (intent : OrderIntent)
    (ob : Orderbook)
    (hob : alookup s.orderbooks intent.market_ticker = some ob) :
    (∀ f ∈ (on_order_intent s intent).2,
      f.1 ≤ intent.max_price_cents ∧ 0 < f.2 ∧
      ∃ pq ∈ (if strLower intent.side = "no" then ob.yes else ob.no),
        0 < pq.2 ∧ f.1 = 100 - pq.1) ∧
    List.Pairwise (fun a b : Int × Int => a.1 ≤ b.1)
      (on_order_intent s intent).2 := by
  rcases on_order_intent_cases s intent with ⟨hfills, _⟩ | ⟨ob', hob', hpos, hfills, _⟩
  · rw [hfills]
    exact ⟨fun f hf => absurd hf (List.not_mem_nil f), List.Pairwise.nil⟩
  · have hobeq : ob' = ob := Option.some.inj (hob'.symm.trans hob)
    rw [hobeq] at hfills
    obtain ⟨extra, hfe, hsub, hprops, _, _, _⟩ :=
      sweepLevels_spec intent.max_price_cents s.max_allocation_per_series
        (spentGet s.series_spent intent.series) (buildLevels ob intent.side)
        { balance := s.paper_balance, bought := 0, cost := 0, fills := [] }
        (le_of_lt hpos)
    rw [List.nil_append] at hfe
    rw [hfills, hfe]
    constructor
    · intro f hf
      refine ⟨(hprops f hf).1, (hprops f hf).2, ?_⟩
      have hmemp : f.1 ∈ extra.map Prod.fst := List.mem_map_of_mem _ hf
      have hmlv : f.1 ∈ (buildLevels ob intent.side).map Prod.fst :=
        hsub.subset hmemp
      obtain ⟨lv, hlv, hlv1⟩ := List.mem_map.mp hmlv
      obtain ⟨pq, hpq, hpq2, hpq1⟩ :=
        buildLevels_mem (show (lv.1, lv.2) ∈ buildLevels ob intent.side from hlv)
      exact ⟨pq, hpq, hpq2, by rw [← hlv1, hpq1]⟩
    · have hlp : List.Pairwise (fun a b : Int => a ≤ b)
          ((buildLevels ob intent.side).map Prod.fst) :=
        List.pairwise_map.mpr (buildLevels_sorted ob intent.side)
      have hep : List.Pairwise (fun a b : Int => a ≤ b) (extra.map Prod.fst) :=
        hlp.sublist hsub
      exact List.pairwise_map.mp hep

/-- C9 witness: a NO-side sweep over resting yes bids 48 and 47 fills at 52
then 53 — complements of the bids, ascending, both under 95. -/
theorem sweep_price_rules_witness :
    (∀ f ∈ (on_order_intent
        { paper_balance := 1000000, starting_balance := 1000000,
          max_total_drawdown := 0, max_allocation_per_series := 0,
          series_spent := [],
          orderbooks := [("T", ⟨[(48, 100), (47, 50)], [(50, 200)]⟩)],
          halted := false }
        { strategy_id := "s1", market_ticker := "T", side := "no",
          max_price_cents := 95 }).2,
      f.1 ≤ 95 ∧ 0 < f.2 ∧
      ∃ pq ∈ (if strLower "no" = "no"
          then [((48 : Int), (100 : Int)), (47, 50)] else [(50, 200)]),
        0 < pq.2 ∧ f.1 = 100 - pq.1) ∧
    List.Pairwise (fun a b : Int × Int => a.1 ≤ b.1)
      (on_order_intent
        { paper_balance := 1000000, starting_balance := 1000000,
          max_total_drawdown := 0, max_allocation_per_series := 0,
          series_spent := [],
          orderbooks := [("T", ⟨[(48, 100), (47, 50)], [(50, 200)]⟩)],
          halted := false }
        { strategy_id := "s1", market_ticker := "T", side := "no",
          max_price_cents := 95 }).2 :=
  sweep_price_rules
    { paper_balance := 1000000, starting_balance := 1000000,
      max_total_drawdown := 0, max_allocation_per_series := 0,
      series_spent := [],
      orderbooks := [("T", ⟨[(48, 100), (47, 50)], [(50, 200)]⟩)],
      halted := false }
    { strategy_id := "s1", market_ticker := "T", side := "no",
      max_price_cents := 95 }
    ⟨[(48, 100), (47, 50)], [(50, 200)]⟩ (by decide)

/-! ## C10: paper balance never negative -/

/-- C10: every `on_order_intent` invocation deducts exactly the sweep's cost,
that cost never exceeds the balance held when the sweep began, and a
non-negative paper balance stays non-negative. -/
theorem paper_balance_nonneg (s : ExecState) (intent : OrderIntent)
    (hbal : 0 ≤ s.paper_balance) :
    0 ≤ (on_order_intent s intent).1.paper_balance ∧
    (on_order_intent s intent).1.paper_balance =
      s.paper_balance - fillsCost (on_order_intent s intent).2 ∧
    fillsCost (on_order_intent s intent).2 ≤ s.paper_balance := by
  rcases on_order_intent_cases s intent with ⟨hfills, hbal'⟩ |
    ⟨ob, hob, hpos, hfills, hbal'⟩
  · rw [hfills, hbal']
    exact ⟨hbal, by simp [fillsCost], by simpa [fillsCost] using hbal⟩
  · obtain ⟨extra, hfe, hsub, hprops, hnn, hbe, hce⟩ :=
      sweepLevels_spec intent.max_price_cents s.max_allocation_per_series
        (spentGet s.series_spent intent.series) (buildLevels ob intent.side)
        { balance := s.paper_balance, bought := 0, cost := 0, fills := [] }
        (le_of_lt hpos)
    rw [List.nil_append] at hfe
    rw [hfills, hbal', hfe]
    refine ⟨hnn, by linarith [hbe], by linarith [hbe, hnn]⟩

/-- C10 witness: with balance 100 and a 52¢ level of quantity 100, exactly
one contract is bought; the balance falls to 48 and stays non-negative. -/
theorem paper_balance_nonneg_witness :
    0 ≤ (on_order_intent
        { paper_balance := 100, starting_balance := 100,
          max_total_drawdown := 0, max_allocation_per_series := 0,
          series_spent := [],
          orderbooks := [("T", ⟨[(48, 100)], []⟩)], halted := false }
        { strategy_id := "s1", market_ticker := "T", side := "no",
          max_price_cents := 95 }).1.paper_balance ∧
    (on_order_intent
        { paper_balance := 100, starting_balance := 100,
          max_total_drawdown := 0, max_allocation_per_series := 0,
          series_spent := [],
          orderbooks := [("T", ⟨[(48, 100)], []⟩)], halted := false }
        { strategy_id := "s1", market_ticker := "T", side := "no",
          max_price_cents := 95 }).1.paper_balance =
      100 - fillsCost (on_order_intent
        { paper_balance := 100, starting_balance := 100,
          max_total_drawdown := 0, max_allocation_per_series := 0,
          series_spent := [],
          orderbooks := [("T", ⟨[(48, 100)], []⟩)], halted := false }
        { strategy_id := "s1", market_ticker := "T", side := "no",
          max_price_cents := 95 }).2 :=
  ⟨(paper_balance_nonneg
      { paper_balance := 100, starting_balance := 100,
        max_total_drawdown := 0, max_allocation_per_series := 0,
        series_spent := [],
        orderbooks := [("T", ⟨[(48, 100)], []⟩)], halted := false }
      { strategy_id := "s1", market_ticker := "T", side := "no",
        max_price_cents := 95 } (by decide)).1,
   (paper_balance_nonneg
      { paper_balance := 100, starting_balance := 100,
        max_total_drawdown := 0, max_allocation_per_series := 0,
        series_spent := [],
        orderbooks := [("T", ⟨[(48, 100)], []⟩)], halted := false }
      { strategy_id := "s1", market_ticker := "T", side := "no",
        max_price_cents := 95 } (by decide)).2.1⟩

/-! ## C1: per-(strategy, event) spend cap -/

/-- C1 (counterexample): the live `ExecutionManager` does not enforce the
intent's `max_spend_cents` at all — its tally `_series_spent` is keyed by
series and capped only by the configured `max_allocation_per_series`.  A
single capped intent (`max_spend_cents = 100`) sweeps a 50¢ × 10 level for a
total of 500¢, and that 500¢ is the whole spend recorded under the intent's
`(strategy_id, event_ticker)` pair — already above the 100¢ cap. -/
theorem exec_spend_cap_counterexample :
    (on_order_intent
      { paper_balance := 1000000, starting_balance := 1000000,
        max_total_drawdown := 0, max_allocation_per_series := 0,
        series_spent := [], orderbooks := [("T", ⟨[(50, 10)], []⟩)],
        halted := false }
      { strategy_id := "s1", market_ticker := "T", side := "no",
        max_price_cents := 95, max_spend_cents := 100,
        event_ticker := "E" }).2 = [(50, 10)] ∧
    fillsCost [(50, 10)] = 500 ∧ ¬ (500 : Int) ≤ 100 := by
  refine ⟨by decide, by decide, by decide⟩

/-- The backtest sweep's accumulated cost never exceeds a non-negative
budget. -/
theorem sweepBT_cost_le (maxPrice budget : Int) (hb : 0 ≤ budget)
    (levels : List (Int × Int)) :
    ∀ acc : Int × Int, acc.2 ≤ budget →
      (sweepLevelsBT maxPrice budget levels acc).2 ≤ budget := by
  induction levels with
  | nil => intro acc h; simpa [sweepLevelsBT] using h
  | cons lv rest ih =>
      intro acc hacc
      obtain ⟨price, qty⟩ := lv
      obtain ⟨bought, cost⟩ := acc
      by_cases h1 : maxPrice < price
      · simpa [sweepLevelsBT, h1] using hacc
      · cases hbc : budgetCap budget cost price qty with
        | none => simpa [sweepLevelsBT, h1, hbc] using hacc
        | some m =>
            have hm : 0 < budget - cost ∧ m = (budget - cost).fdiv price := by
              unfold budgetCap at hbc
              rw [if_pos hb] at hbc
              simp only [] at hbc
              by_cases hbl : budget - cost ≤ 0
              · rw [if_pos hbl] at hbc
                exact absurd hbc (by simp)
              · rw [if_neg hbl] at hbc
                exact ⟨lt_of_not_le hbl, (Option.some.inj hbc).symm⟩
            by_cases haf : 0 < min qty m
            · have hle : min qty m ≤ (budget - cost).fdiv price :=
                hm.2 ▸ min_le_right _ _
              obtain ⟨hp, hcp⟩ := take_le_of_fdiv (le_of_lt hm.1) haf hle
              have hnew : cost + min qty m * price ≤ budget := by linarith
              have hstep : sweepLevelsBT maxPrice budget ((price, qty) :: rest)
                  (bought, cost) = sweepLevelsBT maxPrice budget rest
                    (bought + min qty m, cost + min qty m * price) := by
                simp only [sweepLevelsBT, if_neg h1, hbc]
                rw [if_pos haf]
              rw [hstep]
              exact ih _ hnew
            · have hstep : sweepLevelsBT maxPrice budget ((price, qty) :: rest)
                  (bought, cost) = sweepLevelsBT maxPrice budget rest
                    (bought, cost) := by
                simp only [sweepLevelsBT, if_neg h1, hbc]
                rw [if_neg haf]
              rw [hstep]
              exact ih _ hacc

/-- One backtest intent keeps the spend tally of a capped key within its
cap. -/
theorem bt_spend_bound_step (s : BTState) (intent : OrderIntent)
    (k : String × String) (cap : Int) (hcap : 0 < cap)
    (hk : (intent.strategy_id, intent.event_ticker) = k →
      intent.max_spend_cents = cap)
    (hs : (alookup s.spent k).getD 0 ≤ cap) :
    (alookup (bt_on_order_intent s intent).spent k).getD 0 ≤ cap := by
  unfold bt_on_order_intent
  by_cases hb0 : bt_remaining s intent = 0
  · rw [if_pos hb0]; exact hs
  · rw [if_neg hb0]
    cases hob : alookup s.orderbooks intent.market_ticker with
    | none => exact hs
    | some ob =>
        dsimp only
        by_cases hkey : (intent.strategy_id, intent.event_ticker) = k
        · have hcapEq : intent.max_spend_cents = cap := hk hkey
          have hbud : bt_remaining s intent =
              max 0 (cap - (alookup s.spent k).getD 0) := by
            unfold bt_remaining
            rw [if_neg (by rw [hcapEq]; exact not_le.mpr hcap), hcapEq, hkey]
          have hbnn : 0 ≤ bt_remaining s intent := by
            rw [hbud]; exact le_max_left _ _
          have hcost := sweepBT_cost_le intent.max_price_cents
            (bt_remaining s intent) hbnn (buildLevels ob intent.side) (0, 0) hbnn
          split_ifs with hbought
          · dsimp only
            rw [alookup_aset, if_pos hkey, hkey]
            simp only [Option.getD_some]
            have hcost' : (sweepLevelsBT intent.max_price_cents
                (bt_remaining s intent) (buildLevels ob intent.side) (0, 0)).2 ≤
                bt_remaining s intent := hcost
            have hmx : max 0 (cap - (alookup s.spent k).getD 0) =
                cap - (alookup s.spent k).getD 0 :=
              max_eq_right (by omega)
            rw [hbud, hmx] at hcost'
            omega
          · exact hs
        · split_ifs with hbought
          · dsimp only
            rw [alookup_aset, if_neg hkey]
            exact hs
          · exact hs

/-- C1 (amended): the `(strategy_id, event_ticker)`-keyed budget described by
the spec is implemented by the backtest execution manager
(`BacktestExecutionManager`): with `budget_remaining = max_spend −
spent[(strategy_id, event_ticker)]`, a skip when the cap is exhausted, each
level's take limited to `(budget_remaining − running_cost) // price`, and
`spent[(strategy_id, event_ticker)] += running_cost` after the sweep, the
cumulative spend recorded under a capped key never exceeds `max_spend_cents`
over any stream of intents sharing that cap.  The live `ExecutionManager`
keys its tally by series and enforces only the configured
`max_allocation_per_series`, ignoring `intent.max_spend_cents`. -/
theorem bt_budget_bound (s0 : BTState) (intents : List OrderIntent)
    (k : String × String) (cap : Int) (hcap : 0 < cap)
    (hall : ∀ i ∈ intents,
      (i.strategy_id, i.event_ticker) = k → i.max_spend_cents = cap)
    (hs0 : (alookup s0.spent k).getD 0 ≤ cap) :
    (alookup (bt_run s0 intents).spent k).getD 0 ≤ cap := by
  induction intents generalizing s0 with
  | nil => exact hs0
  | cons i rest ih =>
      exact ih (bt_on_order_intent s0 i)
        (fun j hj => hall j (List.mem_cons_of_mem _ hj))
        (bt_spend_bound_step s0 i k cap hcap (hall i (by simp)) hs0)

/-- C1 witness (amended claim): the spec's scenario — cap 5000¢ over yes bids
48 and 47 — spends 4992¢ ≤ 5000¢ under `("lad", "E")`. -/
theorem bt_budget_bound_witness :
    (alookup (bt_run
        { spent := [],
          orderbooks := [("T", ⟨[(48, 100), (47, 50)], [(50, 200)]⟩)] }
        [{ strategy_id := "lad", market_ticker := "T", side := "no",
           max_price_cents := 95, max_spend_cents := 5000,
           event_ticker := "E" }]).spent ("lad", "E")).getD 0 ≤ 5000 :=
  bt_budget_bound
    { spent := [], orderbooks := [("T", ⟨[(48, 100), (47, 50)], [(50, 200)]⟩)] }
    [{ strategy_id := "lad", market_ticker := "T", side := "no",
       max_price_cents := 95, max_spend_cents := 5000, event_ticker := "E" }]
    ("lad", "E") 5000 (by decide) (by decide) (by decide)

end PredMarket
